import Mathlib

/-!
# Verification of the conduwuit startup migration/repair layer

Shallow embedding of `src/service/migrations.rs` (conduwuit): the startup
data-integrity layer that decides fresh-vs-existing store, runs versioned
schema-step migrations, and runs sentinel-gated feature repairs.

Tables of the ordered key-value store are modelled as association lists;
raw byte keys are `List Nat`; the store's raw scan iterates entries in
byte-lexicographic key order (RocksDB iteration order), modelled by an
insertion sort.  Fallible code (Rust `Result` and `expect`/panic) is
modelled with `Except Err`.  External collaborators that are not part of
this repository (ruma user-id parsing, ruma push-rule server-default
merging) are abstract function parameters bundled in `Ext`; code of the
repository that lives outside the given sources (the media migration, the
state-cache primitives, the admin bootstrap) is modelled from the spec and
marked as such in doc comments.
-/

set_option autoImplicit false

namespace Conduwuit

/-! ## Association lists (the ordered key-value table abstraction) -/

/-- Lookup in an association list: first binding of the key wins. -/
def alGet {κ α : Type} [DecidableEq κ] : List (κ × α) → κ → Option α
  | [], _ => none
  | (k, v) :: l, k' => if k = k' then some v else alGet l k'

/-- Remove every binding of a key (the store's point `remove`). -/
def alErase {κ α : Type} [DecidableEq κ] : List (κ × α) → κ → List (κ × α)
  | [], _ => []
  | e :: l, k => if e.1 = k then alErase l k else e :: alErase l k

/-- Overwriting insert (the store's point `put`/`insert`). -/
def alSet {κ α : Type} [DecidableEq κ] (l : List (κ × α)) (k : κ) (v : α) : List (κ × α) :=
  (k, v) :: alErase l k

/-! ## Byte keys, iterator `position`, and raw-scan order -/

/-- Raw keys and values are byte sequences. -/
abbrev Key := List Nat

abbrev Val := List Nat

/-- A named table ("sub-map") of the key-value store. -/
abbrev Table := List (Key × Val)

/-- The composite-key delimiter byte (`database::SEP`, 0xFF). -/
def SEP : Nat := 0xFF

/-- The sigil character `'$'` that begins event ids in the legacy
`referencedevents` encoding. -/
def SIGIL : Nat := 0x24

/-- Rust's `Iterator::position`: index of the first element satisfying `p`. -/
def position {α : Type} (p : α → Bool) : List α → Option Nat
  | [] => none
  | a :: l => if p a then some 0 else (position p l).map (· + 1)

/-- Byte-lexicographic order on raw keys (the iteration order of the store). -/
def keyLe : List Nat → List Nat → Bool
  | [], _ => true
  | _ :: _, [] => false
  | a :: as, b :: bs => if a < b then true else if b < a then false else keyLe as bs

/-- Ordering of table entries by key. -/
def entryLe (a b : Key × Val) : Prop := keyLe a.1 b.1 = true

instance : DecidableRel entryLe := fun a b =>
  inferInstanceAs (Decidable (keyLe a.1 b.1 = true))

/-- `raw_stream` yields a table's entries in ascending byte order of keys. -/
def sortTable (t : Table) : Table := List.insertionSort entryLe t

/-! ## Data model -/

/-- Abort conditions of the migration layer.  `panic…` constructors model
Rust `expect` panics; the others model `Err!`/`assert!` failures. -/
inductive Err : Type
  /-- `migrations.rs:47`: non-empty store whose server user does not exist. -/
  | serverUserMissing
  /-- `migrations.rs:90`: schema version below the supported minimum 11. -/
  | unsupportedVersion
  /-- `migrations.rs:139`: final version differs from both known-good values. -/
  | versionAssertFailed
  /-- `migrations.rs:234`/`:312`: `expect` on a missing push-rules record. -/
  | panicMissingAccountData
  /-- `migrations.rs:354`: `expect("found 0xFF delim")` on a key with no `0xFF`. -/
  | panicNoSep
  /-- `migrations.rs:481`: `expect` on a key without the `'$'` sigil. -/
  | panicNoSigil
deriving DecidableEq

/-- Observable events of a feature-repair pass, in program order: the
batched-write scope (cork) being opened and released (dropped), per-record
work, the store `cleanup`, and the write of the repair's sentinel key. -/
inductive MigEvent : Type
  | corkOpen
  | recordOp
  | cleanup
  | sentinelWrite
  | corkRelease
deriving DecidableEq

/-- `ruma::events::room::member::MembershipState` (the variants used here). -/
inductive Membership : Type
  | join
  | leave
  | ban
  | invite
  | knock
deriving DecidableEq

/-- A push rule: its identifier plus all remaining fields, abstracted as an
opaque payload (the migration only ever rewrites `rule_id`). -/
structure PushRule : Type where
  rule_id : String
  payload : Nat
deriving DecidableEq

/-- The two rule lists of a ruleset that the schema steps touch
(`content` and `underride`); ruma's other lists are never accessed. -/
structure Ruleset : Type where
  content : List PushRule
  underride : List PushRule
deriving DecidableEq

/-- Server configuration consumed by the migration layer. The forbidden
username/alias pattern sets and the storage-backend label are omitted: the
source only logs with them and never mutates data through them. -/
structure Config : Type where
  server_name : String
  /-- `services.globals.server_user`, derived from the server name. -/
  server_user : String
  media_startup_check : Bool
deriving DecidableEq

/-- External pure collaborators (ruma), abstracted as function parameters:
`parseUser server_name username` models `UserId::parse_with_server_name`,
and `applyServerDefault user rules` models
`Ruleset::server_default(&user)` followed by `update_with_server_default`. -/
structure Ext : Type where
  parseUser : String → String → Option String
  applyServerDefault : String → Ruleset → Ruleset

/-- The store state threaded through the migration layer.  The `global`
table is split into its two well-known parts: the schema `version` integer
and the set of present feature `sentinels` (spec §3, §9).  The membership
cache is modelled at the identifier level: `cache (room, user) = true`
is the cached "joined" marker (presence in `roomuserid_joined`), `false`
the cached "left" marker; `authState` is the authoritative current
membership event per `(room, user)`. -/
structure Store : Type where
  localUsers : List String
  version : Nat
  sentinels : List String
  accountData : List (String × Ruleset)
  roomuserid_joined : Table
  referencedevents : Table
  rooms : List String
  cache : List ((String × String) × Bool)
  joinedCount : List (String × Nat)
  authState : List ((String × String) × Membership)
  mediaMigrated : Bool
  adminRoomCount : Nat
deriving DecidableEq

/-- Presence-only sentinel insert into the `global` table. -/
def addSentinel (n : String) (l : List String) : List String :=
  if n ∈ l then l else n :: l

/-- `DATABASE_VERSION` (`migrations.rs:28`): the current schema version. -/
def DATABASE_VERSION : Nat := 13

/-- `CONDUIT_DATABASE_VERSION` (`migrations.rs:36`): Conduit's compatible
database version, also accepted by the final assertion. -/
def CONDUIT_DATABASE_VERSION : Nat := 16

/-! ## Schema step migrations (`db_lt_12`, `db_lt_13`) -/

/-- `IndexSet::insert` on a rule list: if a rule with the same id already
exists the set is unchanged, otherwise the rule is appended at the end. -/
def rulesInsert (l : List PushRule) (r : PushRule) : List PushRule :=
  if l.any (fun q => q.rule_id == r.rule_id) then l else l ++ [r]

/-- `IndexSet::shift_remove` of the rule with the given id. -/
def rulesShiftRemove (l : List PushRule) (id : String) : List PushRule :=
  l.filter (fun q => q.rule_id != id)

/-- One rename of `db_lt_12` (`migrations.rs:242-249`, `:263-271`): if a
rule with the old id exists, clone it under the new id, `shift_remove` the
old entry, and insert the clone. -/
def renameRule (l : List PushRule) (oldId newId : String) : List PushRule :=
  match l.find? (fun r => r.rule_id == oldId) with
  | none => l
  | some r => rulesInsert (rulesShiftRemove l oldId) { r with rule_id := newId }

/-- The underride rule-id rename table of `db_lt_12` (`migrations.rs:255-261`). -/
def underrideRenames : List (String × String) :=
  [(".m.rules.call", ".m.rule.call"),
   (".m.rules.room_one_to_one", ".m.rule.room_one_to_one"),
   (".m.rules.encrypted_room_one_to_one", ".m.rule.encrypted_room_one_to_one"),
   (".m.rules.message", ".m.rule.message"),
   (".m.rules.encrypted", ".m.rule.encrypted")]

/-- The pure per-user transformation of `db_lt_12` (`migrations.rs:238-272`):
one content-rule rename and five underride-rule renames. -/
def transform12 (g : Ruleset) : Ruleset :=
  { g with
    content := renameRule g.content ".m.rules.contains_user_name" ".m.rule.contains_user_name",
    underride := underrideRenames.foldl (fun l p => renameRule l p.1 p.2) g.underride }

/-- The per-user body shared by `db_lt_12` and `db_lt_13`
(`migrations.rs:222-282`, `:300-328`), parameterized by the pure rules
transformation `tf`: parse the username against the server name (parse
failure is logged and skipped), `expect` the user's push-rules account
data (absence panics), transform, and persist. -/
def push_rules_step_user (tf : String → Ruleset → Ruleset) (cfg : Config) (ext : Ext)
    (s : Store) (username : String) : Except Err Store :=
  match ext.parseUser cfg.server_name username with
  | none => .ok s
  | some user =>
    match alGet s.accountData user with
    | none => .error .panicMissingAccountData
    | some rules => .ok { s with accountData := alSet s.accountData user (tf user rules) }

/-- The per-user body of `db_lt_12`. -/
def db_lt_12_user (ext : Ext) (cfg : Config) : Store → String → Except Err Store :=
  push_rules_step_user (fun _ r => transform12 r) cfg ext

/-- The per-user body of `db_lt_13`: merge the server-default ruleset into
the user's stored ruleset (`update_with_server_default`). -/
def db_lt_13_user (ext : Ext) (cfg : Config) : Store → String → Except Err Store :=
  push_rules_step_user ext.applyServerDefault cfg ext

/-- `db_lt_12` (`migrations.rs:212-288`): process every local user, then
bump the schema version to 12 exactly once. -/
def db_lt_12 (ext : Ext) (cfg : Config) (s : Store) : Except Err Store :=
  match List.foldlM (db_lt_12_user ext cfg) s s.localUsers with
  | .error e => .error e
  | .ok s' => .ok { s' with version := 12 }

/-- `db_lt_13` (`migrations.rs:290-334`): process every local user, then
bump the schema version to 13 exactly once. -/
def db_lt_13 (ext : Ext) (cfg : Config) (s : Store) : Except Err Store :=
  match List.foldlM (db_lt_13_user ext cfg) s s.localUsers with
  | .error e => .error e
  | .ok s' => .ok { s' with version := 13 }

/-! ## Byte-level key repairs -/

/-- Whether a raw key exhibits the doubled-delimiter corruption: the two
bytes starting at the first `0xFF` are `[0xFF, 0xFF]` (`migrations.rs:356-362`). -/
def malformedKey (k : Key) : Bool :=
  match position (fun b => b == SEP) k with
  | none => false
  | some i => ((k.drop i).take 2) == [SEP, SEP]

/-- The repaired form of a doubled-delimiter key: the byte at the first
delimiter position removed (`key.remove(first_sep_index)`, `migrations.rs:366`). -/
def correctedKey (k : Key) : Key :=
  match position (fun b => b == SEP) k with
  | none => k
  | some i => k.eraseIdx i

/-- Per-record body of `fix_bad_double_separator_in_state_cache`
(`migrations.rs:347-370`): `expect` the first `0xFF` (a key without one
panics); if the two bytes there are `[0xFF, 0xFF]`, remove the record and
insert the corrected key with the original value. -/
def fixDoubleSepEntry (acc : Table) (e : Key × Val) : Except Err Table :=
  match position (fun b => b == SEP) e.1 with
  | none => .error .panicNoSep
  | some i =>
    if ((e.1.drop i).take 2) == [SEP, SEP] then
      .ok (alSet (alErase acc e.1) (e.1.eraseIdx i) e.2)
    else .ok acc

/-- `fix_bad_double_separator_in_state_cache` (`migrations.rs:336-378`):
stream `roomuserid_joined` in key order, repair doubled-delimiter keys,
then `cleanup`, then write the sentinel; the cork opened at the top is
dropped at function end.  Returns the new store and the event trace. -/
def fix_bad_double_separator_in_state_cache (s : Store) :
    Except Err (Store × List MigEvent) :=
  let entries := sortTable s.roomuserid_joined
  match List.foldlM fixDoubleSepEntry s.roomuserid_joined entries with
  | .error e => .error e
  | .ok t =>
    .ok ({ s with
            roomuserid_joined := t,
            sentinels := addSentinel "fix_bad_double_separator_in_state_cache" s.sentinels },
         [MigEvent.corkOpen] ++ entries.map (fun _ => MigEvent.recordOp)
           ++ [MigEvent.cleanup, MigEvent.sentinelWrite, MigEvent.corkRelease])

/-- Per-record body of `fix_referencedevents_missing_sep`
(`migrations.rs:474-493`), folding `(table, (total, fixed))` over the
enumerated records: if the key has no `0xFF`, find the `'$'` sigil
(`expect` panics when absent), split the key there, `put_raw` the properly
delimited key and remove the old one; `total` is updated to
`max i total` with the 0-based record index `i`, `fixed` is incremented
for repaired records.  The key is raw bytes; finding `'$'` in the UTF-8
string view is positionally the same as finding the byte `0x24`.  The
`debug_assert!` on an empty value is compiled out in release builds and
is modelled as a no-op. -/
def fixRefEntry (acc : Table × Nat × Nat) (ie : Nat × (Key × Val)) :
    Except Err (Table × Nat × Nat) :=
  let i := ie.1
  let key := ie.2.1
  let v := ie.2.2
  if key.contains SEP then
    .ok (acc.1, max i acc.2.1, acc.2.2)
  else
    match position (fun b => b == SIGIL) key with
    | none => .error .panicNoSigil
    | some n =>
      let room_id := key.take n
      let event_id := key.drop n
      .ok (alErase (alSet acc.1 (room_id ++ [SEP] ++ event_id) v) key,
           max i acc.2.1, acc.2.2 + 1)

/-- `fix_referencedevents_missing_sep` (`migrations.rs:461-501`): stream
`referencedevents` in key order with 0-based enumeration, repair keys
lacking the delimiter, `drop(cork)`, write the sentinel, then `cleanup`.
Returns the new store, the event trace, and the reported
`(total, fixed)` counters. -/
def fix_referencedevents_missing_sep (s : Store) :
    Except Err (Store × List MigEvent × Nat × Nat) :=
  let entries := sortTable s.referencedevents
  match List.foldlM fixRefEntry (s.referencedevents, 0, 0) entries.enum with
  | .error e => .error e
  | .ok r =>
    .ok ({ s with
            referencedevents := r.1,
            sentinels := addSentinel "fix_referencedevents_missing_sep" s.sentinels },
         [MigEvent.corkOpen] ++ entries.map (fun _ => MigEvent.recordOp)
           ++ [MigEvent.corkRelease, MigEvent.sentinelWrite, MigEvent.cleanup],
         r.2.1, r.2.2)

/-! ## Membership reconciler -/

/-- Modelled from the spec: `rooms.state_cache.room_members` (state-cache
service, not under the given sources) streams the users currently cached
as joined members of the room. -/
def room_members (s : Store) (room : String) : List String :=
  (s.cache.filter (fun e => decide (e.1.1 = room) && e.2)).map (fun e => e.1.2)

/-- The authoritative-membership predicate of `migrations.rs:408-413` and
`:421-426`: `get_member(room, user)` mapped through
`member.map_or(false, |m| m.membership == MembershipState::Join)`. -/
def isJoinAuth (s : Store) (room user : String) : Bool :=
  match alGet s.authState (room, user) with
  | none => false
  | some m => m == Membership.join

/-- `joined_members` of `migrations.rs:405-416`: members whose
authoritative membership is `Join`. -/
def joined_bucket (s : Store) (room : String) : List String :=
  (room_members s room).filter (fun u => isJoinAuth s room u)

/-- `non_joined_members` of `migrations.rs:418-429`.  Verbatim from the
source: it uses the same `membership == Join` predicate as
`joined_members`, not its negation. -/
def non_joined_bucket (s : Store) (room : String) : List String :=
  (room_members s room).filter (fun u => isJoinAuth s room u)

/-- Per-room body of the reconciler (`migrations.rs:394-440`): compute both
buckets from the current state, then `mark_as_joined` every user of the
joined bucket and `mark_as_left` every user of the non-joined bucket.
The marks are modelled from the spec (state-cache service): they set the
cached marker to joined (`true`) resp. left (`false`). -/
def retroFix_room (s : Store) (room : String) : Store :=
  let joined := joined_bucket s room
  let non_joined := non_joined_bucket s room
  let c1 := joined.foldl (fun c u => alSet c (room, u) true) s.cache
  let c2 := non_joined.foldl (fun c u => alSet c (room, u) false) c1
  { s with cache := c2 }

/-- Modelled from the spec: `update_joined_count` (state-cache service)
recomputes and persists the room's joined-member counter from the cached
"joined" markers. -/
def update_joined_count (s : Store) (room : String) : Store :=
  { s with joinedCount := alSet s.joinedCount room (room_members s room).length }

/-- `retroactively_fix_bad_data_from_roomuserid_joined`
(`migrations.rs:380-459`): for every room reclassify the cached members,
then for every room recompute the joined counter; then `cleanup`, write
the sentinel, and drop the cork at function end. -/
def retroactively_fix_bad_data_from_roomuserid_joined (s : Store) :
    Store × List MigEvent :=
  let room_ids := s.rooms
  let s1 := room_ids.foldl retroFix_room s
  let s2 := room_ids.foldl update_joined_count s1
  ({ s2 with
      sentinels := addSentinel "retroactively_fix_bad_data_from_roomuserid_joined" s2.sentinels },
   [MigEvent.corkOpen] ++ room_ids.map (fun _ => MigEvent.recordOp)
     ++ [MigEvent.cleanup, MigEvent.sentinelWrite, MigEvent.corkRelease])

/-! ## Migration runner -/

/-- Modelled from the spec: `media::migrations::migrate_sha256_media`
(media module, not under the given sources) is the sentinel-gated media
repair; it transforms the media tables and records completion in the
`feat_sha256_media` sentinel. -/
def migrate_sha256_media (s : Store) : Store :=
  { s with mediaMigrated := true, sentinels := addSentinel "feat_sha256_media" s.sentinels }

/-- Modelled from the spec: `media::migrations::checkup_sha256_media`
(media module, not under the given sources) is the optional startup
consistency re-check of the prior media repair; it is read-only. -/
def checkup_sha256_media (s : Store) : Store := s

/-- Modelled from the spec: `crate::admin::create_admin_room` creates the
root administrative room and the server user, invoked exactly once on the
fresh path (counted by `adminRoomCount`). -/
def create_admin_room (cfg : Config) (s : Store) : Store :=
  { s with
    localUsers := if cfg.server_user ∈ s.localUsers then s.localUsers
                  else s.localUsers ++ [cfg.server_user],
    adminRoomCount := s.adminRoomCount + 1 }

/-- `fresh` (`migrations.rs:60-82`): bump the version to
`DATABASE_VERSION`, pre-set the `feat_sha256_media`,
`fix_bad_double_separator_in_state_cache` and
`retroactively_fix_bad_data_from_roomuserid_joined` sentinels, and create
the admin room and server user. -/
def fresh (cfg : Config) (s : Store) : Except Err Store :=
  let s := { s with version := DATABASE_VERSION }
  let s := { s with sentinels := addSentinel "feat_sha256_media" s.sentinels }
  let s := { s with
              sentinels := addSentinel "fix_bad_double_separator_in_state_cache" s.sentinels }
  let s := { s with
              sentinels :=
                addSentinel "retroactively_fix_bad_data_from_roomuserid_joined" s.sentinels }
  .ok (create_admin_room cfg s)

/-- The two version-gated schema steps of `migrate`
(`migrations.rs:96-104`), each conditioned on the current version. -/
def stepStage (ext : Ext) (cfg : Config) (s : Store) : Except Err Store :=
  match (if s.version < 12 then db_lt_12 ext cfg s else .ok s) with
  | .error e => .error e
  | .ok s1 => if s1.version < 13 then db_lt_13 ext cfg s1 else .ok s1

/-- The media stage of `migrate` (`migrations.rs:106-110`): run the media
migration if its sentinel is absent, else optionally run the read-only
checkup. -/
def mediaStage (cfg : Config) (s : Store) : Store :=
  if "feat_sha256_media" ∈ s.sentinels then
    (if cfg.media_startup_check then checkup_sha256_media s else s)
  else migrate_sha256_media s

/-- The sentinel gate for the doubled-delimiter repair (`migrations.rs:112-118`). -/
def dsepStage (s : Store) : Except Err Store :=
  if "fix_bad_double_separator_in_state_cache" ∈ s.sentinels then .ok s
  else (fix_bad_double_separator_in_state_cache s).map Prod.fst

/-- The sentinel gate for the membership reconciler (`migrations.rs:120-126`). -/
def retroStage (s : Store) : Store :=
  if "retroactively_fix_bad_data_from_roomuserid_joined" ∈ s.sentinels then s
  else (retroactively_fix_bad_data_from_roomuserid_joined s).1

/-- The sentinel gate for the missing-delimiter repair (`migrations.rs:128-134`). -/
def refsepStage (s : Store) : Except Err Store :=
  if "fix_referencedevents_missing_sep" ∈ s.sentinels then .ok s
  else (fix_referencedevents_missing_sep s).map (fun r => r.1)

/-- `migrate` (`migrations.rs:85-210`): reject versions below 11, run the
version-gated schema steps, run the sentinel-gated feature repairs, then
assert the final version is one of the known-good values.  The trailing
forbidden-username/forbidden-alias scans only log warnings and mutate
nothing, so they do not appear in the state transformer. -/
def migrate (ext : Ext) (cfg : Config) (s : Store) : Except Err Store :=
  if s.version < 11 then .error .unsupportedVersion else
  match stepStage ext cfg s with
  | .error e => .error e
  | .ok s2 =>
    match dsepStage (mediaStage cfg s2) with
    | .error e => .error e
    | .ok s4 =>
      match refsepStage (retroStage s4) with
      | .error e => .error e
      | .ok s6 =>
        if s6.version = DATABASE_VERSION ∨ s6.version = CONDUIT_DATABASE_VERSION then .ok s6
        else .error .versionAssertFailed

/-- `migrations` (`migrations.rs:38-58`): on a non-empty store the server
user must exist (otherwise the database cannot be reused) and the migrate
path runs; on an empty store the fresh path runs. -/
def migrations (ext : Ext) (cfg : Config) (s : Store) : Except Err Store :=
  if s.localUsers.length > 0 then
    if cfg.server_user ∈ s.localUsers then migrate ext cfg s
    else .error .serverUserMissing
  else fresh cfg s

/-! ## Concrete fixtures -/

/-- A store with nothing in it (version key absent reads as 0). -/
def emptyStore : Store :=
  { localUsers := [], version := 0, sentinels := [], accountData := [],
    roomuserid_joined := [], referencedevents := [], rooms := [], cache := [],
    joinedCount := [], authState := [], mediaMigrated := false, adminRoomCount := 0 }

/-- Concrete external collaborators: no username parses. -/
def ext₀ : Ext :=
  { parseUser := fun _ _ => none, applyServerDefault := fun _ r => r }

/-- Concrete configuration. -/
def cfg₀ : Config :=
  { server_name := "ex.org", server_user := "@conduit:ex.org", media_startup_check := false }

/-- The result of a first (fresh-path) run of `migrations` on the empty store. -/
def afterFresh : Store := (migrations ext₀ cfg₀ emptyStore).toOption.getD emptyStore

/-- The result of a second run of `migrations` on `afterFresh`. -/
def afterFresh2 : Store := (migrations ext₀ cfg₀ afterFresh).toOption.getD afterFresh

/-- A room with one user whose cached marker is "joined" and whose
authoritative membership is `Join`. -/
def c1_store : Store :=
  { emptyStore with
    rooms := ["!r:ex.org"],
    cache := [(("!r:ex.org", "@u:ex.org"), true)],
    authState := [(("!r:ex.org", "@u:ex.org"), Membership.join)] }

/-- An already-migrated non-empty store (version 13, no sentinels yet). -/
def c2_w : Store :=
  { emptyStore with localUsers := ["@conduit:ex.org"], version := 13 }

/-- The result of running `migrations` once on `c2_w`. -/
def c2_w' : Store := (migrations ext₀ cfg₀ c2_w).toOption.getD c2_w

/-- Two doubled-delimiter keys where the corrected form of the second
equals the first: `[0x41, 0xFF, 0xFF]` and `[0x41, 0xFF, 0xFF, 0xFF]`. -/
def c5_store : Store :=
  { emptyStore with
    roomuserid_joined := [([0x41, 0xFF, 0xFF], [0x01]), ([0x41, 0xFF, 0xFF, 0xFF], [0x02])] }

/-- The spec's doubled-delimiter scenario table:
key `[0x41, 0xFF, 0xFF, 0x42]` with value `[0x01]`. -/
def c5_wit_store : Store :=
  { emptyStore with roomuserid_joined := [([0x41, 0xFF, 0xFF, 0x42], [0x01])] }

/-- A `roomuserid_joined` table whose only key contains no `0xFF` byte. -/
def c6_store : Store :=
  { emptyStore with roomuserid_joined := [([0x41], [])] }

/-- A well-formed single-delimiter entry. -/
def c6_wit_store : Store :=
  { emptyStore with roomuserid_joined := [([0x41, 0xFF, 0x42], [0x07])] }

/-- A `referencedevents` table with two records, one missing the
delimiter (`"a$b"`) and one having it. -/
def c7_store : Store :=
  { emptyStore with
    referencedevents := [([0x61, 0x24, 0x62], []), ([0x63, 0xFF, 0x64], [])] }

/-- A non-empty version-10 store that does not contain the server user. -/
def c8_store : Store :=
  { emptyStore with localUsers := ["@alice:ex.org"], version := 10 }

/-- A non-empty version-10 store that does contain the server user. -/
def c8_wit_store : Store :=
  { emptyStore with localUsers := ["@conduit:ex.org", "@alice:ex.org"], version := 10 }

/-- External collaborators where the username `"bad"` fails to parse and
every other username parses to itself. -/
def ext₁ : Ext :=
  { parseUser := fun _ u => if u = "bad" then none else some u,
    applyServerDefault := fun _ r => r }

/-- An empty ruleset. -/
def ruleset₀ : Ruleset := { content := [], underride := [] }

/-- Two local users: `"bad"` fails to parse, `"good"` parses and has
push-rules account data. -/
def c9_store : Store :=
  { emptyStore with
    localUsers := ["bad", "good"], version := 11,
    accountData := [("good", ruleset₀)] }

/-- One local user that parses fine but has no push-rules account data. -/
def c10_store : Store :=
  { emptyStore with localUsers := ["good"], version := 11, accountData := [] }

/-- A username is processable by a schema step iff it fails to parse (it
is then skipped) or its parsed user id has push-rules account data (the
`expect` at `migrations.rs:234`/`:312` succeeds). -/
def userProcessable (cfg : Config) (ext : Ext) (ad : List (String × Ruleset))
    (u : String) : Bool :=
  match ext.parseUser cfg.server_name u with
  | none => true
  | some uid => (alGet ad uid).isSome

/-! ## Helper lemmas: association lists -/

theorem alGet_alErase_self {κ α : Type} [DecidableEq κ] (l : List (κ × α)) (k : κ) :
    alGet (alErase l k) k = none := by
  induction l with
  | nil => rfl
  | cons e t ih =>
    by_cases h : e.1 = k
    · simpa [alErase, h] using ih
    · simpa [alErase, alGet, h] using ih

theorem alGet_alErase_ne {κ α : Type} [DecidableEq κ] (l : List (κ × α)) (k k' : κ)
    (h : k' ≠ k) : alGet (alErase l k) k' = alGet l k' := by
  induction l with
  | nil => rfl
  | cons e t ih =>
    by_cases he : e.1 = k
    · have hne : e.1 ≠ k' := fun hk => h (hk ▸ he ▸ rfl)
      simp [alErase, he, alGet, hne, ih, Ne.symm h]
    · by_cases hk : e.1 = k'
      · simp [alErase, he, alGet, hk, h]
      · simp [alErase, he, alGet, hk, ih, h]

theorem alGet_alSet_self {κ α : Type} [DecidableEq κ] (l : List (κ × α)) (k : κ) (v : α) :
    alGet (alSet l k v) k = some v := by
  simp [alSet, alGet]

theorem alGet_alSet_ne {κ α : Type} [DecidableEq κ] (l : List (κ × α)) (k k' : κ) (v : α)
    (h : k' ≠ k) : alGet (alSet l k v) k' = alGet l k' := by
  have : k ≠ k' := fun hk => h hk.symm
  simp [alSet, alGet, this, alGet_alErase_ne l k k' h]

theorem alGet_eq_some_of_mem_nodup {κ α : Type} [DecidableEq κ]
    {l : List (κ × α)} {k : κ} {v : α}
    (hnd : (l.map Prod.fst).Nodup) (hm : (k, v) ∈ l) : alGet l k = some v := by
  induction l with
  | nil => simp at hm
  | cons e t ih =>
    simp only [List.map_cons, List.nodup_cons] at hnd
    rcases List.mem_cons.mp hm with h | h
    · simp [alGet, ← h]
    · have hk : e.1 ≠ k := by
        intro hek
        exact hnd.1 (hek ▸ (List.mem_map.mpr ⟨(k, v), h, rfl⟩))
      simp [alGet, hk, ih hnd.2 h]

theorem alGet_isSome_alSet {κ α : Type} [DecidableEq κ] (l : List (κ × α)) (k k' : κ) (v : α)
    (h : (alGet l k').isSome) : (alGet (alSet l k v) k').isSome := by
  by_cases hk : k' = k
  · subst hk; simp [alGet_alSet_self]
  · rwa [alGet_alSet_ne l k k' v hk]

/-! ## Helper lemmas: `position`, sort order, sentinels -/

theorem position_lt_length {α : Type} {p : α → Bool} :
    ∀ {l : List α} {i : Nat}, position p l = some i → i < l.length := by
  intro l
  induction l with
  | nil => intro i h; exact absurd h (by simp [position])
  | cons a t ih =>
    intro i h
    simp only [position] at h
    by_cases hp : p a
    · rw [if_pos hp] at h
      injection h with h
      subst h
      simp
    · rw [if_neg hp] at h
      cases hpos : position p t with
      | none => rw [hpos] at h; exact absurd h (by simp)
      | some j =>
        rw [hpos] at h
        simp only [Option.map_some'] at h
        injection h with h
        subst h
        have := ih hpos
        simp only [List.length_cons]
        omega

theorem mem_sortTable {t : Table} {e : Key × Val} : e ∈ sortTable t ↔ e ∈ t :=
  (List.perm_insertionSort entryLe t).mem_iff

theorem mem_addSentinel_self (n : String) (l : List String) : n ∈ addSentinel n l := by
  by_cases h : n ∈ l
  · simp [addSentinel, h]
  · simp [addSentinel, h]

theorem mem_addSentinel_of_mem {x n : String} {l : List String} (h : x ∈ l) :
    x ∈ addSentinel n l := by
  by_cases hn : n ∈ l
  · simpa [addSentinel, hn]
  · simp [addSentinel, hn, h]

theorem mem_addSentinel_iff_of_ne {x n : String} {l : List String} (h : x ≠ n) :
    x ∈ addSentinel n l ↔ x ∈ l := by
  by_cases hn : n ∈ l
  · simp [addSentinel, hn]
  · simp [addSentinel, hn, h]

/-! ## Claim C1: membership reconciler -/

/-- C1: refuted on the code (code bug).  The claim says the reconciler
leaves every (room, user) cache marker equal to the authoritative
membership and the joined counter equal to the count of authoritative
joiners.  In `c1_store` the single user's authoritative membership is
`Join`, yet after the pass the cached marker is "left" (`false`) and the
joined counter is 0 instead of 1: `non_joined_members` is computed with
the same `membership == Join` predicate as `joined_members`
(`migrations.rs:408-413` vs `:421-426`), so the second loop re-marks
every joined user as left — the last conjunct shows the two buckets are
definitionally equal. -/
theorem c1_reconciler_marks_joined_users_left :
    alGet c1_store.authState ("!r:ex.org", "@u:ex.org") = some Membership.join ∧
    alGet (retroactively_fix_bad_data_from_roomuserid_joined c1_store).1.cache
      ("!r:ex.org", "@u:ex.org") = some false ∧
    alGet (retroactively_fix_bad_data_from_roomuserid_joined c1_store).1.joinedCount
      "!r:ex.org" = some 0 ∧
    non_joined_bucket c1_store "!r:ex.org" = joined_bucket c1_store "!r:ex.org" :=
  ⟨rfl, rfl, rfl, rfl⟩

/-! ## Claim C2: idempotence of the second run -/

/-- C2, counterexample: after a completed fresh-path run the second run is
not mutation-free — `fresh` does not pre-set the
`fix_referencedevents_missing_sep` sentinel, so the second run executes
that repair and writes the sentinel, changing the global table. -/
theorem c2_counterexample :
    migrations ext₀ cfg₀ emptyStore = .ok afterFresh ∧
    migrations ext₀ cfg₀ afterFresh = .ok afterFresh2 ∧
    afterFresh2 ≠ afterFresh ∧
    "fix_referencedevents_missing_sep" ∉ afterFresh.sentinels ∧
    "fix_referencedevents_missing_sep" ∈ afterFresh2.sentinels :=
  ⟨rfl, rfl, by decide, by decide, by decide⟩

/-! ## Claim C3: fresh-store scenario -/

/-- C3, counterexample: on the empty store, startup completes with version
13 and one admin-bootstrap invocation, but the
`fix_referencedevents_missing_sep` sentinel — which the migrate path
checks (`migrations.rs:128-134`) — is not pre-set by `fresh`
(`migrations.rs:69-71` inserts only the other three). -/
theorem c3_counterexample :
    migrations ext₀ cfg₀ emptyStore = .ok afterFresh ∧
    afterFresh.version = DATABASE_VERSION ∧
    afterFresh.adminRoomCount = 1 ∧
    "fix_referencedevents_missing_sep" ∉ afterFresh.sentinels :=
  ⟨rfl, rfl, rfl, by decide⟩

/-- C3, amended: on a store with zero local users, startup succeeds with
stored version 13, exactly one admin-bootstrap invocation, and the three
sentinels `feat_sha256_media`, `fix_bad_double_separator_in_state_cache`
and `retroactively_fix_bad_data_from_roomuserid_joined` pre-set; the
`fix_referencedevents_missing_sep` sentinel is not pre-set (it is present
afterwards only if it already was before). -/
theorem c3_fresh_store_state (ext : Ext) (cfg : Config) (s : Store)
    (h : s.localUsers = []) :
    ∃ s', migrations ext cfg s = .ok s' ∧
      s'.version = DATABASE_VERSION ∧
      s'.adminRoomCount = s.adminRoomCount + 1 ∧
      "feat_sha256_media" ∈ s'.sentinels ∧
      "fix_bad_double_separator_in_state_cache" ∈ s'.sentinels ∧
      "retroactively_fix_bad_data_from_roomuserid_joined" ∈ s'.sentinels ∧
      ("fix_referencedevents_missing_sep" ∈ s'.sentinels ↔
        "fix_referencedevents_missing_sep" ∈ s.sentinels) := by
  have hlen : ¬ s.localUsers.length > 0 := by simp [h]
  simp only [migrations, if_neg hlen, fresh]
  refine ⟨_, rfl, rfl, rfl, ?_, ?_, ?_, ?_⟩
  · exact mem_addSentinel_of_mem (mem_addSentinel_of_mem (mem_addSentinel_self _ _))
  · exact mem_addSentinel_of_mem (mem_addSentinel_self _ _)
  · exact mem_addSentinel_self _ _
  · simp only [create_admin_room]
    rw [mem_addSentinel_iff_of_ne (by decide), mem_addSentinel_iff_of_ne (by decide),
      mem_addSentinel_iff_of_ne (by decide)]

/-- Witness for `c3_fresh_store_state` at the empty store. -/
theorem c3_fresh_store_state_witness :
    emptyStore.localUsers = [] ∧
    ∃ s', migrations ext₀ cfg₀ emptyStore = .ok s' ∧
      s'.version = DATABASE_VERSION ∧
      s'.adminRoomCount = emptyStore.adminRoomCount + 1 ∧
      "feat_sha256_media" ∈ s'.sentinels ∧
      "fix_bad_double_separator_in_state_cache" ∈ s'.sentinels ∧
      "retroactively_fix_bad_data_from_roomuserid_joined" ∈ s'.sentinels ∧
      ("fix_referencedevents_missing_sep" ∈ s'.sentinels ↔
        "fix_referencedevents_missing_sep" ∈ emptyStore.sentinels) :=
  ⟨rfl, c3_fresh_store_state ext₀ cfg₀ emptyStore rfl⟩

/-! ## Claim C4: cork released before sentinel write -/

/-- C4: refuted on the code (code bug).  In the traces of
`fix_bad_double_separator_in_state_cache` and
`retroactively_fix_bad_data_from_roomuserid_joined` the sentinel write
(index 2) precedes the cork release (index 3): both functions write their
sentinel (`migrations.rs:374`, `:455`) while the `_cork` binding is still
alive — it is dropped only at function end.  Only
`fix_referencedevents_missing_sep` releases the cork (`drop(cork)`,
`migrations.rs:496`) before writing its sentinel (`:499`). -/
theorem c4_sentinel_written_before_cork_release :
    (fix_bad_double_separator_in_state_cache emptyStore).map Prod.snd =
      .ok [MigEvent.corkOpen, MigEvent.cleanup, MigEvent.sentinelWrite, MigEvent.corkRelease] ∧
    (retroactively_fix_bad_data_from_roomuserid_joined emptyStore).2 =
      [MigEvent.corkOpen, MigEvent.cleanup, MigEvent.sentinelWrite, MigEvent.corkRelease] ∧
    (fix_referencedevents_missing_sep emptyStore).map (fun r => r.2.1) =
      .ok [MigEvent.corkOpen, MigEvent.corkRelease, MigEvent.sentinelWrite, MigEvent.cleanup] ∧
    position (fun e => e == MigEvent.sentinelWrite)
      [MigEvent.corkOpen, MigEvent.cleanup, MigEvent.sentinelWrite, MigEvent.corkRelease] =
      some 2 ∧
    position (fun e => e == MigEvent.corkRelease)
      [MigEvent.corkOpen, MigEvent.cleanup, MigEvent.sentinelWrite, MigEvent.corkRelease] =
      some 3 :=
  ⟨rfl, rfl, rfl, by decide, by decide⟩

/-! ## Claim C5: doubled-delimiter repair, per-entry effect -/

/-- C5, counterexample: two malformed keys where the corrected form of
`[0x41, 0xFF, 0xFF, 0xFF]` is exactly the other malformed key
`[0x41, 0xFF, 0xFF]`.  After the pass the entry `([0x41, 0xFF, 0xFF],
[0x01])` violates the claim: its original malformed key still exists in
the table (re-inserted, with value `[0x02]`, by the later record's
correction). -/
theorem c5_counterexample :
    malformedKey [0x41, 0xFF, 0xFF] = true ∧
    ([0x41, 0xFF, 0xFF], [0x01]) ∈ c5_store.roomuserid_joined ∧
    correctedKey [0x41, 0xFF, 0xFF, 0xFF] = [0x41, 0xFF, 0xFF] ∧
    (fix_bad_double_separator_in_state_cache c5_store).map
      (fun p => alGet p.1.roomuserid_joined [0x41, 0xFF, 0xFF]) = .ok (some [0x02]) :=
  ⟨rfl, by decide, rfl, rfl⟩

/-! ## Claim C6: doubled-delimiter repair, totality and no-op keys -/

/-- C6, counterexample: a key containing no `0xFF` delimiter byte at all
is not processed and left untouched — the pass panics on it
(`expect("found 0xFF delim")`, `migrations.rs:354`). -/
theorem c6_counterexample :
    ([0x41], ([] : Val)) ∈ c6_store.roomuserid_joined ∧
    List.contains [0x41] SEP = false ∧
    fix_bad_double_separator_in_state_cache c6_store = .error .panicNoSep :=
  ⟨by decide, rfl, rfl⟩

/-! ## Claim C7: missing-delimiter repair counters -/

/-- C7: refuted on the code (code bug).  On a two-record table the pass
reports `total = 1`, not the number of records visited (2): the fold
accumulates `cmp::max(i, total)` over the 0-based record index
(`migrations.rs:490`), so for a non-empty table the reported total is the
record count minus one.  The `fixed` count (1) is correct. -/
theorem c7_total_is_max_index_not_count :
    c7_store.referencedevents.length = 2 ∧
    (fix_referencedevents_missing_sep c7_store).map (fun r => (r.2.2.1, r.2.2.2)) =
      .ok (1, 1) :=
  ⟨rfl, rfl⟩

/-! ## Claim C8: unsupported-version failure -/

/-- C8, counterexample: a store with one local user and version 10 whose
server user is absent fails with the server-identity error
(`migrations.rs:47`), which precedes the version check — not with the
unsupported-version error the claim requires for every such store. -/
theorem c8_counterexample :
    0 < c8_store.localUsers.length ∧
    c8_store.version = 10 ∧
    migrations ext₀ cfg₀ c8_store = .error .serverUserMissing ∧
    Err.serverUserMissing ≠ Err.unsupportedVersion :=
  ⟨by decide, rfl, rfl, by decide⟩

/-- C8, amended: on every store with at least one local user *whose server
user exists* and a stored version below 11, startup fails with the
unsupported-version error (and, the model being a pure state transformer
whose error return carries no state, performs no mutation — in the source
the check at `migrations.rs:89` precedes every write of the migrate
path). -/
theorem c8_unsupported_version_fatal (ext : Ext) (cfg : Config) (s : Store)
    (h1 : 0 < s.localUsers.length) (h2 : cfg.server_user ∈ s.localUsers)
    (h3 : s.version < 11) :
    migrations ext cfg s = .error .unsupportedVersion := by
  simp [migrations, h1, h2, migrate, h3]

/-- Witness for `c8_unsupported_version_fatal` at a version-10 store
containing the server user. -/
theorem c8_unsupported_version_fatal_witness :
    0 < c8_wit_store.localUsers.length ∧
    cfg₀.server_user ∈ c8_wit_store.localUsers ∧
    c8_wit_store.version < 11 ∧
    migrations ext₀ cfg₀ c8_wit_store = .error .unsupportedVersion :=
  ⟨by decide, by decide, by decide,
    c8_unsupported_version_fatal ext₀ cfg₀ c8_wit_store (by decide) (by decide) (by decide)⟩

/-! ## Helper lemmas: schema steps -/

/-- A schema-step user body fails with the missing-account-data panic
exactly when the username parses but the parsed user id has no
push-rules account data. -/
theorem push_step_error_iff (tf : String → Ruleset → Ruleset) (cfg : Config) (ext : Ext)
    (t : Store) (w : String) :
    push_rules_step_user tf cfg ext t w = .error .panicMissingAccountData ↔
      userProcessable cfg ext t.accountData w = false := by
  cases hp : ext.parseUser cfg.server_name w with
  | none => simp [push_rules_step_user, hp, userProcessable]
  | some wid =>
    cases hg : alGet t.accountData wid with
    | none => simp [push_rules_step_user, hp, hg, userProcessable]
    | some rules => simp [push_rules_step_user, hp, hg, userProcessable]

/-- A successful schema-step user body never changes the stored version,
sentinels or user list. -/
theorem push_step_preserves (tf : String → Ruleset → Ruleset) (cfg : Config) (ext : Ext)
    {t : Store} {w : String} {t' : Store}
    (h : push_rules_step_user tf cfg ext t w = .ok t') :
    t'.version = t.version ∧ t'.sentinels = t.sentinels ∧ t'.localUsers = t.localUsers := by
  cases hp : ext.parseUser cfg.server_name w with
  | none =>
    simp only [push_rules_step_user, hp] at h
    injection h with h
    subst h
    exact ⟨rfl, rfl, rfl⟩
  | some wid =>
    cases hg : alGet t.accountData wid with
    | none => simp [push_rules_step_user, hp, hg] at h
    | some rules =>
      simp only [push_rules_step_user, hp, hg] at h
      injection h with h
      subst h
      exact ⟨rfl, rfl, rfl⟩

/-- If every user in the list is processable against the current account
data, the per-user fold of a schema step succeeds and preserves the
version, sentinels and user list. -/
theorem push_fold_ok (tf : String → Ruleset → Ruleset) (cfg : Config) (ext : Ext) :
    ∀ (l : List String) (s : Store),
      (∀ u ∈ l, userProcessable cfg ext s.accountData u = true) →
      ∃ s', List.foldlM (push_rules_step_user tf cfg ext) s l = .ok s' ∧
        s'.version = s.version ∧ s'.sentinels = s.sentinels ∧ s'.localUsers = s.localUsers := by
  intro l
  induction l with
  | nil => intro s _; exact ⟨s, rfl, rfl, rfl, rfl⟩
  | cons u t ih =>
    intro s h
    have hu := h u (List.mem_cons_self u t)
    cases hp : ext.parseUser cfg.server_name u with
    | none =>
      have hstep : push_rules_step_user tf cfg ext s u = .ok s := by
        simp [push_rules_step_user, hp]
      obtain ⟨s', hfold, hv, hs, hl⟩ := ih s (fun w hw => h w (List.mem_cons_of_mem _ hw))
      refine ⟨s', ?_, hv, hs, hl⟩
      rw [List.foldlM_cons, hstep]
      simpa using hfold
    | some uid =>
      have hsome : (alGet s.accountData uid).isSome := by
        have := hu
        simpa [userProcessable, hp] using this
      obtain ⟨rules, hr⟩ := Option.isSome_iff_exists.mp hsome
      have hstep : push_rules_step_user tf cfg ext s u =
          .ok { s with accountData := alSet s.accountData uid (tf uid rules) } := by
        simp [push_rules_step_user, hp, hr]
      have hproc : ∀ w ∈ t,
          userProcessable cfg ext
            (alSet s.accountData uid (tf uid rules)) w = true := by
        intro w hw
        have hw' := h w (List.mem_cons_of_mem _ hw)
        cases hpw : ext.parseUser cfg.server_name w with
        | none => simp [userProcessable, hpw]
        | some wid =>
          have : (alGet s.accountData wid).isSome := by
            simpa [userProcessable, hpw] using hw'
          simpa [userProcessable, hpw] using alGet_isSome_alSet _ uid wid _ this
      obtain ⟨s', hfold, hv, hs, hl⟩ :=
        ih { s with accountData := alSet s.accountData uid (tf uid rules) } hproc
      refine ⟨s', ?_, hv, hs, hl⟩
      rw [List.foldlM_cons, hstep]
      simpa using hfold

/-! ## Claim C9: parse failures are skipped, one version bump per step -/

/-- C9: confirmed.  If every local user either fails to parse or has
push-rules account data, `db_lt_12` succeeds with version 12 and
`db_lt_13` succeeds with version 13; a user whose identifier fails to
parse is skipped with the state unchanged and the step continues; and no
successful per-user body ever changes the version — the bump to the
step's target version happens exactly once, after the user loop. -/
theorem c9_skip_and_single_bump (ext : Ext) (cfg : Config) (s : Store)
    (h : ∀ u ∈ s.localUsers, userProcessable cfg ext s.accountData u = true) :
    (∃ s12, db_lt_12 ext cfg s = .ok s12 ∧ s12.version = 12) ∧
    (∃ s13, db_lt_13 ext cfg s = .ok s13 ∧ s13.version = 13) ∧
    (∀ t u, ext.parseUser cfg.server_name u = none →
      db_lt_12_user ext cfg t u = .ok t ∧ db_lt_13_user ext cfg t u = .ok t) ∧
    (∀ t u t', db_lt_12_user ext cfg t u = .ok t' → t'.version = t.version) ∧
    (∀ t u t', db_lt_13_user ext cfg t u = .ok t' → t'.version = t.version) := by
  obtain ⟨s12, h12, hv12, -, -⟩ := push_fold_ok (fun _ r => transform12 r) cfg ext s.localUsers s h
  obtain ⟨s13, h13, hv13, -, -⟩ := push_fold_ok ext.applyServerDefault cfg ext s.localUsers s h
  refine ⟨⟨{ s12 with version := 12 }, ?_, rfl⟩, ⟨{ s13 with version := 13 }, ?_, rfl⟩,
    ?_, ?_, ?_⟩
  · simp [db_lt_12, db_lt_12_user, h12]
  · simp [db_lt_13, db_lt_13_user, h13]
  · intro t u hpu
    exact ⟨by simp [db_lt_12_user, push_rules_step_user, hpu],
           by simp [db_lt_13_user, push_rules_step_user, hpu]⟩
  · intro t u t' ht
    exact (push_step_preserves _ cfg ext ht).1
  · intro t u t' ht
    exact (push_step_preserves _ cfg ext ht).1

/-- Witness for `c9_skip_and_single_bump`: one unparsable user `"bad"`
and one parsable user `"good"` with account data. -/
theorem c9_skip_and_single_bump_witness :
    (∀ u ∈ c9_store.localUsers,
      userProcessable cfg₀ ext₁ c9_store.accountData u = true) ∧
    ((∃ s12, db_lt_12 ext₁ cfg₀ c9_store = .ok s12 ∧ s12.version = 12) ∧
     (∃ s13, db_lt_13 ext₁ cfg₀ c9_store = .ok s13 ∧ s13.version = 13) ∧
     (∀ t u, ext₁.parseUser cfg₀.server_name u = none →
       db_lt_12_user ext₁ cfg₀ t u = .ok t ∧ db_lt_13_user ext₁ cfg₀ t u = .ok t) ∧
     (∀ t u t', db_lt_12_user ext₁ cfg₀ t u = .ok t' → t'.version = t.version) ∧
     (∀ t u t', db_lt_13_user ext₁ cfg₀ t u = .ok t' → t'.version = t.version)) :=
  ⟨by decide, c9_skip_and_single_bump ext₁ cfg₀ c9_store (by decide)⟩

/-! ## Claim C10: missing account data panics instead of skipping -/

/-- C10: confirmed.  A local user whose identifier parses but whose
push-rules account data is absent makes `db_lt_12` and `db_lt_13` abort
with the `expect` panic; and a per-user body fails with exactly that
panic iff the user parses and lacks account data — the skip path is
reserved for identifier parse failures. -/
theorem c10_missing_account_data_panics (ext : Ext) (cfg : Config) (s : Store)
    (u uid : String)
    (hu : s.localUsers = [u])
    (hp : ext.parseUser cfg.server_name u = some uid)
    (had : alGet s.accountData uid = none) :
    db_lt_12 ext cfg s = .error .panicMissingAccountData ∧
    db_lt_13 ext cfg s = .error .panicMissingAccountData ∧
    (∀ t w, db_lt_12_user ext cfg t w = .error .panicMissingAccountData ↔
      userProcessable cfg ext t.accountData w = false) ∧
    (∀ t w, db_lt_13_user ext cfg t w = .error .panicMissingAccountData ↔
      userProcessable cfg ext t.accountData w = false) := by
  have hstep : push_rules_step_user (fun _ r => transform12 r) cfg ext s u =
      .error .panicMissingAccountData := by
    simp [push_rules_step_user, hp, had]
  have hstep' : push_rules_step_user ext.applyServerDefault cfg ext s u =
      .error .panicMissingAccountData := by
    simp [push_rules_step_user, hp, had]
  refine ⟨?_, ?_, ?_, ?_⟩
  · simp [db_lt_12, db_lt_12_user, hu, List.foldlM_cons, hstep]
  · simp [db_lt_13, db_lt_13_user, hu, List.foldlM_cons, hstep']
  · intro t w; exact push_step_error_iff _ cfg ext t w
  · intro t w; exact push_step_error_iff _ cfg ext t w

/-- Witness for `c10_missing_account_data_panics`: the single user
`"good"` parses to itself and has no account data. -/
theorem c10_missing_account_data_panics_witness :
    c10_store.localUsers = ["good"] ∧
    ext₁.parseUser cfg₀.server_name "good" = some "good" ∧
    alGet c10_store.accountData "good" = none ∧
    db_lt_12 ext₁ cfg₀ c10_store = .error .panicMissingAccountData :=
  ⟨rfl, by decide, rfl,
    (c10_missing_account_data_panics ext₁ cfg₀ c10_store "good" "good" rfl (by decide) rfl).1⟩

/-! ## Helper lemmas: doubled-delimiter repair fold -/

theorem foldlM_except_append {σ α ε : Type} (f : σ → α → Except ε σ) :
    ∀ (L₁ L₂ : List α) (acc b : σ),
      List.foldlM f acc L₁ = .ok b →
      List.foldlM f acc (L₁ ++ L₂) = List.foldlM f b L₂ := by
  intro L₁
  induction L₁ with
  | nil =>
    intro L₂ acc b h
    simp only [List.foldlM_nil, pure, Except.pure] at h
    injection h with h
    subst h
    rfl
  | cons a t ih =>
    intro L₂ acc b h
    rw [List.foldlM_cons] at h
    cases hf : f acc a with
    | error e =>
      rw [hf] at h
      simp [Bind.bind, Except.bind] at h
    | ok c =>
      rw [hf] at h
      simp only [Bind.bind, Except.bind] at h
      rw [List.cons_append, List.foldlM_cons, hf]
      simp only [Bind.bind, Except.bind]
      exact ih L₂ c b h

/-- A malformed key and its corrected form differ (the correction removes
one byte). -/
theorem correctedKey_ne_self {k : Key} (h : malformedKey k = true) : correctedKey k ≠ k := by
  unfold malformedKey at h
  cases hpos : position (fun b => b == SEP) k with
  | none => rw [hpos] at h; simp at h
  | some i =>
    have hi := position_lt_length hpos
    intro heq
    simp only [correctedKey, hpos] at heq
    have hlen := List.length_eraseIdx_add_one hi
    rw [heq] at hlen
    omega

/-- If every entry's key has a delimiter, the per-record fold of the
doubled-delimiter repair succeeds. -/
theorem foldFix_ok :
    ∀ (L : List (Key × Val)) (acc : Table),
      (∀ e ∈ L, (position (fun b => b == SEP) e.1).isSome) →
      ∃ r, List.foldlM fixDoubleSepEntry acc L = .ok r := by
  intro L
  induction L with
  | nil => intro acc _; exact ⟨acc, rfl⟩
  | cons e t ih =>
    intro acc h
    have he := h e (List.mem_cons_self e t)
    cases hpos : position (fun b => b == SEP) e.1 with
    | none => rw [hpos] at he; simp at he
    | some i =>
      have htail := fun w hw => h w (List.mem_cons_of_mem _ hw)
      by_cases hdb : ((e.1.drop i).take 2) = [SEP, SEP]
      · obtain ⟨r, hr⟩ := ih (alSet (alErase acc e.1) (e.1.eraseIdx i) e.2) htail
        refine ⟨r, ?_⟩
        rw [List.foldlM_cons,
          show fixDoubleSepEntry acc e =
            .ok (alSet (alErase acc e.1) (e.1.eraseIdx i) e.2) from by
              simp [fixDoubleSepEntry, hpos, hdb]]
        simpa [Bind.bind, Except.bind] using hr
      · obtain ⟨r, hr⟩ := ih acc htail
        refine ⟨r, ?_⟩
        rw [List.foldlM_cons,
          show fixDoubleSepEntry acc e = .ok acc from by simp [fixDoubleSepEntry, hpos, hdb]]
        simpa [Bind.bind, Except.bind] using hr

/-- If no entry of the processed list removes or inserts the key `x`, the
per-record fold of the doubled-delimiter repair leaves the lookup of `x`
unchanged. -/
theorem foldFix_get_eq :
    ∀ (L : List (Key × Val)) (acc r : Table) (x : Key),
      List.foldlM fixDoubleSepEntry acc L = .ok r →
      (∀ e ∈ L, malformedKey e.1 = true → e.1 ≠ x ∧ correctedKey e.1 ≠ x) →
      alGet r x = alGet acc x := by
  intro L
  induction L with
  | nil =>
    intro acc r x hf _
    simp only [List.foldlM_nil, pure, Except.pure] at hf
    injection hf with hf
    subst hf
    rfl
  | cons e t ih =>
    intro acc r x hf hcond
    rw [List.foldlM_cons] at hf
    have hcondt := fun w hw => hcond w (List.mem_cons_of_mem _ hw)
    cases hpos : position (fun b => b == SEP) e.1 with
    | none =>
      rw [show fixDoubleSepEntry acc e = .error .panicNoSep from by
        simp [fixDoubleSepEntry, hpos]] at hf
      simp [Bind.bind, Except.bind] at hf
    | some i =>
      by_cases hdb : ((e.1.drop i).take 2) = [SEP, SEP]
      · rw [show fixDoubleSepEntry acc e =
            .ok (alSet (alErase acc e.1) (e.1.eraseIdx i) e.2) from by
              simp [fixDoubleSepEntry, hpos, hdb]] at hf
        simp only [Bind.bind, Except.bind] at hf
        have hmal : malformedKey e.1 = true := by simp [malformedKey, hpos, hdb]
        obtain ⟨hne1, hne2⟩ := hcond e (List.mem_cons_self e t) hmal
        have hck : correctedKey e.1 = e.1.eraseIdx i := by simp [correctedKey, hpos]
        rw [hck] at hne2
        rw [ih _ r x hf hcondt,
          alGet_alSet_ne _ _ _ _ (Ne.symm hne2),
          alGet_alErase_ne _ _ _ (Ne.symm hne1)]
      · rw [show fixDoubleSepEntry acc e = .ok acc from by
          simp [fixDoubleSepEntry, hpos, hdb]] at hf
        simp only [Bind.bind, Except.bind] at hf
        exact ih _ r x hf hcondt

/-- C5, amended: the per-entry round trip of the doubled-delimiter repair
holds whenever the repaired keys do not collide with other records: if
every key of the table has a delimiter (otherwise the pass panics, claim
C6), the table's keys are distinct, and no malformed entry's corrected
key equals another entry's key or another malformed entry's corrected
key, then for every entry whose key has the doubled delimiter the pass
succeeds, the corrected key (the original with one of the doubled `0xFF`
bytes removed) maps to the unchanged original value, and the original
malformed key no longer exists.  Without the no-collision hypothesis the
last part fails (`c5_counterexample`). -/
theorem c5_doubled_delimiter_roundtrip (s : Store) (k₀ : Key) (v₀ : Val)
    (hmem : (k₀, v₀) ∈ s.roomuserid_joined)
    (hbad : malformedKey k₀ = true)
    (hsep : ∀ e ∈ s.roomuserid_joined, (position (fun b => b == SEP) e.1).isSome)
    (hnodup : (s.roomuserid_joined.map Prod.fst).Nodup)
    (hcoll : ∀ e ∈ s.roomuserid_joined, malformedKey e.1 = true →
      ∀ e' ∈ s.roomuserid_joined, e' ≠ e →
        correctedKey e.1 ≠ e'.1 ∧
        (malformedKey e'.1 = true → correctedKey e.1 ≠ correctedKey e'.1)) :
    ∃ s' tr, fix_bad_double_separator_in_state_cache s = .ok (s', tr) ∧
      alGet s'.roomuserid_joined (correctedKey k₀) = some v₀ ∧
      alGet s'.roomuserid_joined k₀ = none := by
  have hperm : (sortTable s.roomuserid_joined).Perm s.roomuserid_joined :=
    List.perm_insertionSort entryLe s.roomuserid_joined
  have hmemL : (k₀, v₀) ∈ sortTable s.roomuserid_joined := mem_sortTable.mpr hmem
  obtain ⟨L₁, L₂, hsplit⟩ := List.append_of_mem hmemL
  have hsepL : ∀ e ∈ sortTable s.roomuserid_joined,
      (position (fun b => b == SEP) e.1).isSome :=
    fun e he => hsep e (mem_sortTable.mp he)
  obtain ⟨a₁, h₁⟩ := foldFix_ok L₁ s.roomuserid_joined
    (fun e he => hsepL e (hsplit ▸ List.mem_append_left _ he))
  have hbadm := hbad
  unfold malformedKey at hbadm
  cases hpos : position (fun b => b == SEP) k₀ with
  | none => rw [hpos] at hbadm; simp at hbadm
  | some i =>
    rw [hpos] at hbadm
    have hdb : ((k₀.drop i).take 2) = [SEP, SEP] := by simpa using hbadm
    have hstep : fixDoubleSepEntry a₁ (k₀, v₀) =
        .ok (alSet (alErase a₁ k₀) (k₀.eraseIdx i) v₀) := by
      simp [fixDoubleSepEntry, hpos, hdb]
    obtain ⟨r, h₂⟩ := foldFix_ok L₂ (alSet (alErase a₁ k₀) (k₀.eraseIdx i) v₀)
      (fun e he => hsepL e
        (hsplit ▸ List.mem_append_right _ (List.mem_cons_of_mem _ he)))
    have hfold : List.foldlM fixDoubleSepEntry s.roomuserid_joined
        (sortTable s.roomuserid_joined) = .ok r := by
      rw [hsplit, foldlM_except_append _ L₁ _ _ a₁ h₁, List.foldlM_cons, hstep]
      simpa [Bind.bind, Except.bind] using h₂
    have hnodupL : ((sortTable s.roomuserid_joined).map Prod.fst).Nodup :=
      ((hperm.map Prod.fst).nodup_iff).mpr hnodup
    have hk₀notin : k₀ ∉ L₂.map Prod.fst := by
      rw [hsplit] at hnodupL
      simp only [List.map_append, List.map_cons] at hnodupL
      exact (List.nodup_cons.mp (List.nodup_append.mp hnodupL).2.1).1
    have hmemt : ∀ e ∈ L₂, e ∈ s.roomuserid_joined := fun e he =>
      mem_sortTable.mp
        (hsplit ▸ List.mem_append_right _ (List.mem_cons_of_mem _ he))
    have hne_entry : ∀ e ∈ L₂, e ≠ (k₀, v₀) := by
      intro e he heq
      exact hk₀notin (List.mem_map.mpr ⟨e, he, by rw [heq]⟩)
    have hcond1 : ∀ e ∈ L₂, malformedKey e.1 = true →
        e.1 ≠ k₀ ∧ correctedKey e.1 ≠ k₀ := by
      intro e he hm
      refine ⟨?_, ?_⟩
      · intro h; exact hk₀notin (List.mem_map.mpr ⟨e, he, h⟩)
      · exact (hcoll e (hmemt e he) hm (k₀, v₀) hmem (Ne.symm (hne_entry e he))).1
    have hcond2 : ∀ e ∈ L₂, malformedKey e.1 = true →
        e.1 ≠ correctedKey k₀ ∧ correctedKey e.1 ≠ correctedKey k₀ := by
      intro e he hm
      refine ⟨?_, ?_⟩
      · exact Ne.symm
          ((hcoll (k₀, v₀) hmem hbad e (hmemt e he) (hne_entry e he)).1)
      · exact (hcoll e (hmemt e he) hm (k₀, v₀) hmem (Ne.symm (hne_entry e he))).2 hbad
    have hck : correctedKey k₀ = k₀.eraseIdx i := by simp [correctedKey, hpos]
    have hne_ck : k₀ ≠ k₀.eraseIdx i := hck ▸ Ne.symm (correctedKey_ne_self hbad)
    have hget1 : alGet r (correctedKey k₀) = some v₀ := by
      rw [foldFix_get_eq L₂ _ r _ h₂ hcond2, hck, alGet_alSet_self]
    have hget2 : alGet r k₀ = none := by
      rw [foldFix_get_eq L₂ _ r _ h₂ hcond1,
        alGet_alSet_ne _ _ _ _ hne_ck, alGet_alErase_self]
    refine ⟨{ s with
        roomuserid_joined := r,
        sentinels := addSentinel "fix_bad_double_separator_in_state_cache" s.sentinels },
      [MigEvent.corkOpen] ++ (sortTable s.roomuserid_joined).map (fun _ => MigEvent.recordOp)
        ++ [MigEvent.cleanup, MigEvent.sentinelWrite, MigEvent.corkRelease], ?_, ?_, ?_⟩
    · simp only [fix_bad_double_separator_in_state_cache]
      rw [hfold]
    · simpa using hget1
    · simpa using hget2

/-- Witness for `c5_doubled_delimiter_roundtrip` at the spec's concrete
scenario: key `[0x41, 0xFF, 0xFF, 0x42]` with value `[0x01]` becomes key
`[0x41, 0xFF, 0x42]` with value `[0x01]` and the original key is gone. -/
theorem c5_doubled_delimiter_roundtrip_witness :
    ([0x41, 0xFF, 0xFF, 0x42], [0x01]) ∈ c5_wit_store.roomuserid_joined ∧
    malformedKey [0x41, 0xFF, 0xFF, 0x42] = true ∧
    correctedKey [0x41, 0xFF, 0xFF, 0x42] = [0x41, 0xFF, 0x42] ∧
    ∃ s' tr, fix_bad_double_separator_in_state_cache c5_wit_store = .ok (s', tr) ∧
      alGet s'.roomuserid_joined (correctedKey [0x41, 0xFF, 0xFF, 0x42]) = some [0x01] ∧
      alGet s'.roomuserid_joined [0x41, 0xFF, 0xFF, 0x42] = none :=
  ⟨by decide, by decide, by decide,
    c5_doubled_delimiter_roundtrip c5_wit_store [0x41, 0xFF, 0xFF, 0x42] [0x01]
      (by decide) (by decide) (by decide) (by decide) (by decide)⟩

/-- C6, amended: provided every key of the `roomuserid_joined` table
contains at least one `0xFF` delimiter byte, the pass processes every
record without failing; and an entry without the doubling pattern has no
repair operation applied to it — provided additionally that no malformed
entry's corrected key collides with its key, its mapping is unchanged in
the result.  A key with no `0xFF` at all makes the whole pass fail with
the `expect` panic instead (`c6_counterexample`). -/
theorem c6_no_pattern_untouched (s : Store) (k₀ : Key) (v₀ : Val)
    (hsep : ∀ e ∈ s.roomuserid_joined, (position (fun b => b == SEP) e.1).isSome)
    (hnodup : (s.roomuserid_joined.map Prod.fst).Nodup)
    (hmem : (k₀, v₀) ∈ s.roomuserid_joined)
    (hgood : malformedKey k₀ = false)
    (hnocoll : ∀ e ∈ s.roomuserid_joined, malformedKey e.1 = true →
      correctedKey e.1 ≠ k₀) :
    ∃ s' tr, fix_bad_double_separator_in_state_cache s = .ok (s', tr) ∧
      alGet s'.roomuserid_joined k₀ = some v₀ := by
  have hperm : (sortTable s.roomuserid_joined).Perm s.roomuserid_joined :=
    List.perm_insertionSort entryLe s.roomuserid_joined
  have hsepL : ∀ e ∈ sortTable s.roomuserid_joined,
      (position (fun b => b == SEP) e.1).isSome :=
    fun e he => hsep e (mem_sortTable.mp he)
  obtain ⟨r, hr⟩ := foldFix_ok (sortTable s.roomuserid_joined) s.roomuserid_joined hsepL
  have hcond : ∀ e ∈ sortTable s.roomuserid_joined, malformedKey e.1 = true →
      e.1 ≠ k₀ ∧ correctedKey e.1 ≠ k₀ := by
    intro e he hm
    have het : e ∈ s.roomuserid_joined := mem_sortTable.mp he
    refine ⟨?_, hnocoll e het hm⟩
    intro hk
    have : malformedKey k₀ = true := hk ▸ hm
    rw [hgood] at this
    exact Bool.false_ne_true this
  have hget : alGet r k₀ = some v₀ := by
    rw [foldFix_get_eq _ _ r _ hr hcond]
    exact alGet_eq_some_of_mem_nodup hnodup hmem
  refine ⟨{ s with
      roomuserid_joined := r,
      sentinels := addSentinel "fix_bad_double_separator_in_state_cache" s.sentinels },
    [MigEvent.corkOpen] ++ (sortTable s.roomuserid_joined).map (fun _ => MigEvent.recordOp)
      ++ [MigEvent.cleanup, MigEvent.sentinelWrite, MigEvent.corkRelease], ?_, ?_⟩
  · simp only [fix_bad_double_separator_in_state_cache]
    rw [hr]
  · simpa using hget

/-- Witness for `c6_no_pattern_untouched` at a well-formed
single-delimiter entry. -/
theorem c6_no_pattern_untouched_witness :
    ([0x41, 0xFF, 0x42], [0x07]) ∈ c6_wit_store.roomuserid_joined ∧
    malformedKey [0x41, 0xFF, 0x42] = false ∧
    ∃ s' tr, fix_bad_double_separator_in_state_cache c6_wit_store = .ok (s', tr) ∧
      alGet s'.roomuserid_joined [0x41, 0xFF, 0x42] = some [0x07] :=
  ⟨by decide, by decide,
    c6_no_pattern_untouched c6_wit_store [0x41, 0xFF, 0x42] [0x07]
      (by decide) (by decide) (by decide) (by decide) (by decide)⟩

/-! ## Helper lemmas: migrate pipeline stages -/

/-- A schema-step user fold, when it succeeds, preserves version,
sentinels and user list (the bump happens outside the fold). -/
theorem push_fold_preserves (tf : String → Ruleset → Ruleset) (cfg : Config) (ext : Ext) :
    ∀ (l : List String) (s s' : Store),
      List.foldlM (push_rules_step_user tf cfg ext) s l = .ok s' →
      s'.version = s.version ∧ s'.sentinels = s.sentinels ∧ s'.localUsers = s.localUsers := by
  intro l
  induction l with
  | nil =>
    intro s s' h
    simp only [List.foldlM_nil, pure, Except.pure] at h
    injection h with h
    subst h
    exact ⟨rfl, rfl, rfl⟩
  | cons u t ih =>
    intro s s' h
    rw [List.foldlM_cons] at h
    cases hstep : push_rules_step_user tf cfg ext s u with
    | error e => rw [hstep] at h; simp [Bind.bind, Except.bind] at h
    | ok s1 =>
      rw [hstep] at h
      simp only [Bind.bind, Except.bind] at h
      obtain ⟨h1, h2, h3⟩ := push_step_preserves tf cfg ext hstep
      obtain ⟨g1, g2, g3⟩ := ih s1 s' h
      exact ⟨g1.trans h1, g2.trans h2, g3.trans h3⟩

theorem db_lt_12_ok {ext : Ext} {cfg : Config} {s s' : Store}
    (h : db_lt_12 ext cfg s = .ok s') :
    s'.version = 12 ∧ s'.sentinels = s.sentinels ∧ s'.localUsers = s.localUsers := by
  unfold db_lt_12 db_lt_12_user at h
  cases hf : List.foldlM (push_rules_step_user (fun _ r => transform12 r) cfg ext)
      s s.localUsers with
  | error e => rw [hf] at h; exact absurd h (by simp)
  | ok s1 =>
    rw [hf] at h
    injection h with h
    subst h
    obtain ⟨-, h2, h3⟩ := push_fold_preserves _ cfg ext s.localUsers s s1 hf
    exact ⟨rfl, h2, h3⟩

theorem db_lt_13_ok {ext : Ext} {cfg : Config} {s s' : Store}
    (h : db_lt_13 ext cfg s = .ok s') :
    s'.version = 13 ∧ s'.sentinels = s.sentinels ∧ s'.localUsers = s.localUsers := by
  unfold db_lt_13 db_lt_13_user at h
  cases hf : List.foldlM (push_rules_step_user ext.applyServerDefault cfg ext)
      s s.localUsers with
  | error e => rw [hf] at h; exact absurd h (by simp)
  | ok s1 =>
    rw [hf] at h
    injection h with h
    subst h
    obtain ⟨-, h2, h3⟩ := push_fold_preserves _ cfg ext s.localUsers s s1 hf
    exact ⟨rfl, h2, h3⟩

theorem stepStage_ok {ext : Ext} {cfg : Config} {s s' : Store}
    (h : stepStage ext cfg s = .ok s') :
    s'.sentinels = s.sentinels ∧ s'.localUsers = s.localUsers := by
  unfold stepStage at h
  by_cases h12 : s.version < 12
  · rw [if_pos h12] at h
    cases hf : db_lt_12 ext cfg s with
    | error e => rw [hf] at h; exact absurd h (by simp)
    | ok s1 =>
      rw [hf] at h
      dsimp only at h
      obtain ⟨hv1, hs1, hl1⟩ := db_lt_12_ok hf
      by_cases h13 : s1.version < 13
      · rw [if_pos h13] at h
        obtain ⟨-, hs2, hl2⟩ := db_lt_13_ok h
        exact ⟨hs2.trans hs1, hl2.trans hl1⟩
      · rw [if_neg h13] at h
        injection h with h
        subst h
        exact ⟨hs1, hl1⟩
  · rw [if_neg h12] at h
    dsimp only at h
    by_cases h13 : s.version < 13
    · rw [if_pos h13] at h
      obtain ⟨-, hs2, hl2⟩ := db_lt_13_ok h
      exact ⟨hs2, hl2⟩
    · rw [if_neg h13] at h
      injection h with h
      subst h
      exact ⟨rfl, rfl⟩

theorem mediaStage_facts (cfg : Config) (s : Store) :
    (mediaStage cfg s).localUsers = s.localUsers ∧
    "feat_sha256_media" ∈ (mediaStage cfg s).sentinels ∧
    ∀ x ∈ s.sentinels, x ∈ (mediaStage cfg s).sentinels := by
  unfold mediaStage
  by_cases hm : "feat_sha256_media" ∈ s.sentinels
  · rw [if_pos hm]
    by_cases hc : cfg.media_startup_check
    · rw [if_pos hc]
      exact ⟨rfl, hm, fun x hx => hx⟩
    · rw [if_neg hc]
      exact ⟨rfl, hm, fun x hx => hx⟩
  · rw [if_neg hm]
    exact ⟨rfl, mem_addSentinel_self _ _, fun x hx => mem_addSentinel_of_mem hx⟩

theorem dsepStage_ok {s s' : Store} (h : dsepStage s = .ok s') :
    s'.localUsers = s.localUsers ∧ s'.version = s.version ∧
    "fix_bad_double_separator_in_state_cache" ∈ s'.sentinels ∧
    ∀ x ∈ s.sentinels, x ∈ s'.sentinels := by
  unfold dsepStage at h
  by_cases hm : "fix_bad_double_separator_in_state_cache" ∈ s.sentinels
  · rw [if_pos hm] at h
    injection h with h
    subst h
    exact ⟨rfl, rfl, hm, fun x hx => hx⟩
  · rw [if_neg hm] at h
    unfold fix_bad_double_separator_in_state_cache at h
    dsimp only at h
    cases hf : List.foldlM fixDoubleSepEntry s.roomuserid_joined
        (sortTable s.roomuserid_joined) with
    | error e => rw [hf] at h; simp [Except.map] at h
    | ok t =>
      rw [hf] at h
      simp only [Except.map] at h
      injection h with h
      subst h
      exact ⟨rfl, rfl, mem_addSentinel_self _ _, fun x hx => mem_addSentinel_of_mem hx⟩

theorem foldl_retroFix_fields :
    ∀ (rs : List String) (s : Store),
      (rs.foldl retroFix_room s).localUsers = s.localUsers ∧
      (rs.foldl retroFix_room s).version = s.version ∧
      (rs.foldl retroFix_room s).sentinels = s.sentinels := by
  intro rs
  induction rs with
  | nil => intro s; exact ⟨rfl, rfl, rfl⟩
  | cons rm t ih =>
    intro s
    simp only [List.foldl_cons]
    obtain ⟨a, b, c⟩ := ih (retroFix_room s rm)
    exact ⟨a.trans rfl, b.trans rfl, c.trans rfl⟩

theorem foldl_updateCount_fields :
    ∀ (rs : List String) (s : Store),
      (rs.foldl update_joined_count s).localUsers = s.localUsers ∧
      (rs.foldl update_joined_count s).version = s.version ∧
      (rs.foldl update_joined_count s).sentinels = s.sentinels := by
  intro rs
  induction rs with
  | nil => intro s; exact ⟨rfl, rfl, rfl⟩
  | cons rm t ih =>
    intro s
    simp only [List.foldl_cons]
    obtain ⟨a, b, c⟩ := ih (update_joined_count s rm)
    exact ⟨a.trans rfl, b.trans rfl, c.trans rfl⟩

theorem retroStage_facts (s : Store) :
    (retroStage s).localUsers = s.localUsers ∧ (retroStage s).version = s.version ∧
    "retroactively_fix_bad_data_from_roomuserid_joined" ∈ (retroStage s).sentinels ∧
    ∀ x ∈ s.sentinels, x ∈ (retroStage s).sentinels := by
  unfold retroStage
  by_cases hm : "retroactively_fix_bad_data_from_roomuserid_joined" ∈ s.sentinels
  · rw [if_pos hm]
    exact ⟨rfl, rfl, hm, fun x hx => hx⟩
  · rw [if_neg hm]
    unfold retroactively_fix_bad_data_from_roomuserid_joined
    obtain ⟨a1, b1, c1⟩ := foldl_retroFix_fields s.rooms s
    obtain ⟨a2, b2, c2⟩ := foldl_updateCount_fields s.rooms (s.rooms.foldl retroFix_room s)
    refine ⟨a2.trans a1, b2.trans b1, mem_addSentinel_self _ _, ?_⟩
    intro x hx
    exact mem_addSentinel_of_mem (by rw [c2, c1]; exact hx)

theorem refsepStage_ok {s s' : Store} (h : refsepStage s = .ok s') :
    s'.localUsers = s.localUsers ∧ s'.version = s.version ∧
    "fix_referencedevents_missing_sep" ∈ s'.sentinels ∧
    ∀ x ∈ s.sentinels, x ∈ s'.sentinels := by
  unfold refsepStage at h
  by_cases hm : "fix_referencedevents_missing_sep" ∈ s.sentinels
  · rw [if_pos hm] at h
    injection h with h
    subst h
    exact ⟨rfl, rfl, hm, fun x hx => hx⟩
  · rw [if_neg hm] at h
    unfold fix_referencedevents_missing_sep at h
    dsimp only at h
    cases hf : List.foldlM fixRefEntry (s.referencedevents, 0, 0)
        (sortTable s.referencedevents).enum with
    | error e => rw [hf] at h; simp [Except.map] at h
    | ok r =>
      rw [hf] at h
      simp only [Except.map] at h
      injection h with h
      subst h
      exact ⟨rfl, rfl, mem_addSentinel_self _ _, fun x hx => mem_addSentinel_of_mem hx⟩

/-- What a successful migrate run guarantees about the resulting store:
unchanged user list, a known-good final version, and all four feature
sentinels present. -/
theorem migrate_post {ext : Ext} {cfg : Config} {s s' : Store}
    (h : migrate ext cfg s = .ok s') :
    s'.localUsers = s.localUsers ∧
    (s'.version = DATABASE_VERSION ∨ s'.version = CONDUIT_DATABASE_VERSION) ∧
    "feat_sha256_media" ∈ s'.sentinels ∧
    "fix_bad_double_separator_in_state_cache" ∈ s'.sentinels ∧
    "retroactively_fix_bad_data_from_roomuserid_joined" ∈ s'.sentinels ∧
    "fix_referencedevents_missing_sep" ∈ s'.sentinels := by
  unfold migrate at h
  by_cases h11 : s.version < 11
  · rw [if_pos h11] at h; exact absurd h (by simp)
  rw [if_neg h11] at h
  cases hs2 : stepStage ext cfg s with
  | error e => rw [hs2] at h; exact absurd h (by simp)
  | ok s2 =>
    rw [hs2] at h
    dsimp only at h
    cases hs4 : dsepStage (mediaStage cfg s2) with
    | error e => rw [hs4] at h; exact absurd h (by simp)
    | ok s4 =>
      rw [hs4] at h
      dsimp only at h
      cases hs6 : refsepStage (retroStage s4) with
      | error e => rw [hs6] at h; exact absurd h (by simp)
      | ok s6 =>
        rw [hs6] at h
        dsimp only at h
        by_cases hv : s6.version = DATABASE_VERSION ∨ s6.version = CONDUIT_DATABASE_VERSION
        · rw [if_pos hv] at h
          injection h with h
          subst h
          obtain ⟨hsen2, hl2⟩ := stepStage_ok hs2
          obtain ⟨hl3, hfeat3, hsub3⟩ := mediaStage_facts cfg s2
          obtain ⟨hl4, -, hdsep4, hsub4⟩ := dsepStage_ok hs4
          obtain ⟨hl5, -, hretro5, hsub5⟩ := retroStage_facts s4
          obtain ⟨hl6, -, hrefsep6, hsub6⟩ := refsepStage_ok hs6
          refine ⟨?_, hv, ?_, ?_, ?_, hrefsep6⟩
          · rw [hl6, hl5, hl4, hl3, hl2]
          · exact hsub6 _ (hsub5 _ (hsub4 _ hfeat3))
          · exact hsub6 _ (hsub5 _ hdsep4)
          · exact hsub6 _ hretro5
        · rw [if_neg hv] at h; exact absurd h (by simp)

/-- On a store that already carries a known-good version and all four
feature sentinels, `migrate` is the identity. -/
theorem migrate_skip {ext : Ext} {cfg : Config} {s : Store}
    (hv : s.version = DATABASE_VERSION ∨ s.version = CONDUIT_DATABASE_VERSION)
    (h1 : "feat_sha256_media" ∈ s.sentinels)
    (h2 : "fix_bad_double_separator_in_state_cache" ∈ s.sentinels)
    (h3 : "retroactively_fix_bad_data_from_roomuserid_joined" ∈ s.sentinels)
    (h4 : "fix_referencedevents_missing_sep" ∈ s.sentinels) :
    migrate ext cfg s = .ok s := by
  have h11 : ¬ s.version < 11 := by
    rcases hv with h | h <;> simp [h, DATABASE_VERSION, CONDUIT_DATABASE_VERSION]
  have h12 : ¬ s.version < 12 := by
    rcases hv with h | h <;> simp [h, DATABASE_VERSION, CONDUIT_DATABASE_VERSION]
  have h13 : ¬ s.version < 13 := by
    rcases hv with h | h <;> simp [h, DATABASE_VERSION, CONDUIT_DATABASE_VERSION]
  have hstep : stepStage ext cfg s = .ok s := by
    unfold stepStage
    rw [if_neg h12]
    simp [h13]
  have hmedia : mediaStage cfg s = s := by
    unfold mediaStage
    rw [if_pos h1]
    by_cases hc : cfg.media_startup_check
    · rw [if_pos hc]; rfl
    · rw [if_neg hc]
  have hdsep : dsepStage s = .ok s := by unfold dsepStage; rw [if_pos h2]
  have hretro : retroStage s = s := by unfold retroStage; rw [if_pos h3]
  have hrefsep : refsepStage s = .ok s := by unfold refsepStage; rw [if_pos h4]
  unfold migrate
  rw [if_neg h11]
  simp only [hstep, hmedia, hdsep, hretro, hrefsep]
  rw [if_pos hv]

/-- C2, amended: the claim holds for every store on which the sequence
completed through the *migrate* path (at least one local user): the
second run satisfies every version gate and every sentinel check and
performs zero mutations — it returns the store unchanged.  After a
completed *fresh* run the claim fails (`c2_counterexample`): the second
run still executes the `fix_referencedevents_missing_sep` repair and
writes its sentinel, because `fresh` does not pre-set it. -/
theorem c2_second_run_no_mutation (ext : Ext) (cfg : Config) (s s' : Store)
    (husers : 0 < s.localUsers.length)
    (h : migrations ext cfg s = .ok s') :
    migrations ext cfg s' = .ok s' := by
  unfold migrations at h
  rw [if_pos husers] at h
  by_cases hsrv : cfg.server_user ∈ s.localUsers
  · rw [if_pos hsrv] at h
    obtain ⟨hu, hv, h1, h2, h3, h4⟩ := migrate_post h
    unfold migrations
    rw [hu, if_pos husers, if_pos hsrv]
    exact migrate_skip hv h1 h2 h3 h4
  · rw [if_neg hsrv] at h
    exact absurd h (by simp)

/-- Witness for `c2_second_run_no_mutation`: a version-13 one-user store;
the first run sets the sentinels, the second run returns it unchanged. -/
theorem c2_second_run_no_mutation_witness :
    0 < c2_w.localUsers.length ∧
    migrations ext₀ cfg₀ c2_w = .ok c2_w' ∧
    migrations ext₀ cfg₀ c2_w' = .ok c2_w' :=
  ⟨by decide, rfl, c2_second_run_no_mutation ext₀ cfg₀ c2_w c2_w' (by decide) rfl⟩

end Conduwuit
